import Mathlib

/-!
Verification development for `remax-cli`'s web bundler-configuration
assembler (`src/packages/remax-cli/src/web/webpackConfig.web.ts`).

The TypeScript module is shallowly embedded: strings stay strings, JS
objects become association lists in insertion order, the `webpack-chain`
builder becomes an explicit `ChainConfig` state value threaded through the
computation (the source keeps it in a module-level `config` binding, line
23), and a thrown JS error becomes an `Except` error result.  Collaborator
modules that are outside `src/` (`getEntries`, `getEnvironment`,
`styleConfig`, `alias`, `extensions`, lodash's `camelCase`) are modelled
from the spec; each such definition is marked in its doc comment.
-/

/-! ## String and list helpers mirroring the JS / Node primitives used -/

/-- `pre.isPrefixOf s` on the underlying character lists. -/
def strStartsWith (s pre : String) : Bool := pre.data.isPrefixOf s.data

/-- `suf.isSuffixOf s` on the underlying character lists. -/
def strEndsWith (s suf : String) : Bool := suf.data.isSuffixOf s.data

/-- ASCII lower-casing of one character. -/
def lowerChar (c : Char) : Char :=
  if 'A' ≤ c && c ≤ 'Z' then Char.ofNat (c.toNat + 32) else c

/-- ASCII upper-casing of one character. -/
def upperChar (c : Char) : Char :=
  if 'a' ≤ c && c ≤ 'z' then Char.ofNat (c.toNat - 32) else c

/-- ASCII lower-casing of a string (models the `i` regex flag). -/
def lowerStr (s : String) : String := ⟨s.data.map lowerChar⟩

/-- Removes the first occurrence of `pat` from `s` (character-list form). -/
def replaceFirstL (pat : List Char) : List Char → List Char
  | [] => []
  | c :: t =>
    if pat.isPrefixOf (c :: t) then (c :: t).drop pat.length
    else c :: replaceFirstL pat t

/-- Models JS `s.replace(pat, '')` with a *string* pattern: removes the
first occurrence of `pat`, if any (JS `String.prototype.replace` replaces
only the leftmost match when given a string pattern). -/
def replaceFirst (pat s : String) : String := ⟨replaceFirstL pat.data s.data⟩

/-- The basename of a path: the part after the last `/`. -/
def basenameL (s : List Char) : List Char :=
  (s.reverse.takeWhile fun c => c != '/').reverse

/-- Models Node `path.extname`: the suffix of the basename starting at its
last dot; empty when the basename has no dot or only a leading dot. -/
def extnameL (s : List Char) : List Char :=
  let base := basenameL s
  let revTail := base.reverse.takeWhile fun c => c != '.'
  if base.length ≤ revTail.length + 1 then [] else '.' :: revTail.reverse

/-- `path.extname` on strings. -/
def extname (s : String) : String := ⟨extnameL s.data⟩

/-- One pattern character of the `RegExp` built from an `extname` result
against one input character: `.` is a wildcard, every other character that
can occur in an extension matches literally. -/
def charMatches (p c : Char) : Bool := p = '.' || p = c

/-- Whether the end-anchored fixed-length pattern `pat` matches the end of
`s`. -/
def patSuffixMatches (pat s : List Char) : Bool :=
  decide (pat.length ≤ s.length) &&
    ((pat.zip (s.drop (s.length - pat.length))).all fun pc => charMatches pc.1 pc.2)

/-- Models line 42's `.replace(new RegExp(ext + "$"), '')`: the pattern is
end-anchored and of fixed length (an `extname` result contains no regex
metacharacters other than its dots), so it strips the final `ext.length`
characters exactly when they match the pattern characterwise. -/
def stripExtAnchored (ext s : String) : String :=
  if patSuffixMatches ext.data s.data then ⟨s.data.take (s.data.length - ext.data.length)⟩
  else s

/-- Models Node `path.join` for two already-normalized segments:
concatenates with a single separator and drops a leading `./` on the
second segment (`..` resolution is not modelled; no input here uses it). -/
def pathJoin (a b : String) : String :=
  let b2 := if strStartsWith b "./" then (⟨b.data.drop 2⟩ : String) else b
  if a = "" then b2
  else if b2 = "" then a
  else if strEndsWith a "/" then a ++ b2
  else a ++ "/" ++ b2

/-- Is this character in `[a-zA-Z0-9]`? -/
def isAlphaNum (c : Char) : Bool :=
  ('a' ≤ c && c ≤ 'z') || ('A' ≤ c && c ≤ 'Z') || ('0' ≤ c && c ≤ '9')

/-- Splits a character list into its maximal alphanumeric words. -/
def splitWordsL (acc : List Char) : List Char → List (List Char)
  | [] => if acc = [] then [] else [acc.reverse]
  | c :: t =>
    if isAlphaNum c then splitWordsL (c :: acc) t
    else if acc = [] then splitWordsL [] t
    else acc.reverse :: splitWordsL [] t

/-- Modelled from the spec (§4.3): lodash `camelCase`, an external library
function, restricted to the ASCII kebab-case loader ids this module passes
it (`"babel"`, `"remax-define"`, `"resolve-platform"`, ...): split into
alphanumeric words, lowercase the first, capitalize the rest. -/
def camelCase (s : String) : String :=
  match splitWordsL [] s.data with
  | [] => ""
  | w :: ws =>
    ⟨w.map lowerChar ++
      (ws.map fun v =>
        match v.map lowerChar with
        | [] => ([] : List Char)
        | c :: t => upperChar c :: t).flatten⟩

/-- `webpack-chain`'s `ChainedSet.add`: append unless already present. -/
def chainedSetAdd [DecidableEq α] (x : α) (l : List α) : List α :=
  if x ∈ l then l else l ++ [x]

/-- `webpack-chain`'s `ChainedSet.merge`: add each element in order. -/
def chainedSetMerge [DecidableEq α] (l add : List α) : List α :=
  add.foldl (fun acc x => chainedSetAdd x acc) l

/-- Is `pat` a contiguous sublist of `s`?  (An `isInfixOf` check, used to
model an unanchored regex search.) -/
def infixOfL (pat : List Char) : List Char → Bool
  | [] => pat.isPrefixOf []
  | c :: t => pat.isPrefixOf (c :: t) || infixOfL pat t

/-- JS object property assignment `m[k] = v` on a string-keyed object:
overwrite in place when `k` is present, else append (insertion order is
kept, as JS objects do for string keys). -/
def objAssign (m : List (String × String)) (k v : String) : List (String × String) :=
  if m.any fun q => q.1 = k then m.map fun q => if q.1 = k then (k, v) else q
  else m ++ [(k, v)]

/-- JS object property read `m[k]`. -/
def lookupAssoc (m : List (String × String)) (k : String) : Option String :=
  (m.find? fun q => q.1 = k).map Prod.snd

/-! ## Data model -/

/-- A thrown JS error; evaluating an unbound identifier raises
`ReferenceError`. -/
inductive JsError
  | referenceError (ident : String)
deriving DecidableEq

/-- Outcome of the `fs.existsSync` probe inside `useLoader`'s `try` block:
the file exists, it does not, or the probe itself threw (caught by the
`catch` on line 31). -/
inductive ProbeResult
  | found
  | absent
  | probeError
deriving DecidableEq

/-- Modelled from the spec: `Platform` from `../build/platform` (outside
`src/`) — the build target. -/
inductive Platform
  | web
  | wechat
  | alipay
deriving DecidableEq

def platformName : Platform → String
  | .web => "web"
  | .wechat => "wechat"
  | .alipay => "alipay"

/-- The regex literals appearing in the module, plus the user-supplied
CSS-module regex carried by its source text. -/
inductive RegexV
  | stylesRe
  | jsonRe
  | remaxDefineRe
  | imagesRe
  | matcherRe
  | cssModulesRe (src : String)
deriving DecidableEq

/-- A value stored in a rule's `include`/`exclude` chained set: a string
condition or a regex condition. -/
inductive TestVal
  | str (s : String)
  | regex (src : String)
deriving DecidableEq

/-- The babel plugin factories referenced by the two script rules (all from
`../build/plugins`, outside `src/`; carried as tagged descriptors). -/
inductive BabelPluginV
  | appPlugin (appEntry : String)
  | pagePlugin (pages : List String)
  | nativeComponentsBabel
  | componentsPlugin
deriving DecidableEq

/-- Loader option objects occurring in the module.  In `cssOpts`,
`modules := false` renders the source object that has no `modules` key
(lines 122–124), `modules := true` the one with `modules: true`
(lines 147–150). -/
inductive LoaderOpts
  | emptyObj
  | babelOpts (usePlugins : List BabelPluginV) (reactPreset : Bool)
  | cssOpts (importLoaders : Nat) (modules : Bool)
  | postcssOpts (configPath : String) (plugins : List String)
deriving DecidableEq

/-- One `use` entry of a rule: name, loader, optional options object. -/
structure UseEntry where
  name : String
  loader : String
  options : Option LoaderOpts
deriving DecidableEq

/-- A `webpack-chain` rule. -/
structure Rule where
  name : String
  test : Option RegexV
  includeCond : List TestVal
  excludeCond : List TestVal
  uses : List UseEntry
deriving DecidableEq

/-- A registered plugin value.  `unconfigured` is a plugin slot created by
`config.plugin(name)` whose `.use(...)` was never reached. -/
inductive PluginV
  | unconfigured
  | virtualModuleP (moduleName : String) (contents : String)
  | progressP
  | defineP (stringified : List (String × String))
  | cssExtractP (filename : String)
  | optimizeEntriesP
  | nativeFilesP
  | cleanP
  | markerP
deriving DecidableEq

/-- The `webpack-chain` builder state (the module-level `config` of line
23) restricted to the fields this module touches. -/
structure ChainConfig where
  entryPoints : List (String × List String)
  devtool : Option String
  mode : String
  context : String
  resolveExtensions : List String
  resolveAlias : List (String × String)
  outputPath : String
  outputFilename : String
  rules : List Rule
  plugins : List (String × PluginV)
deriving DecidableEq

/-- Line 23: `new Config()` — the accumulator's initial state. -/
def freshConfig : ChainConfig := ⟨[], none, "", "", [], [], "", "", [], []⟩

/-- The result of `getEntries`. -/
structure Entries where
  app : String
  pages : List String
deriving DecidableEq

/-- The result of `getEnvironment`: a variable mapping and its stringified
form. -/
structure Environment where
  raw : List (String × String)
  stringified : List (String × String)
deriving DecidableEq

/-- The `cssModules` field of the options: enabled flag plus the matching
regex (carried by its source text). -/
structure CssModulesOpt where
  enabled : Bool
  regExpSrc : String
deriving DecidableEq

/-- Modelled from the spec (§3): the "free-form style-tooling toggles"
consulted by `styleConfig.enabled` (outside `src/`). -/
structure StyleToggles where
  less : Bool
  nodeSass : Bool
  stylus : Bool
deriving DecidableEq

/-- `RemaxOptions` (from `remax-types`, outside `src/`): the fields this
module reads, per the spec's §6 input table; the app/page entries are the
declared entry files that `getEntries` resolves. -/
structure RemaxOptions where
  cwd : String
  rootDir : String
  output : String
  cssModules : CssModulesOpt
  progress : Bool
  styleToggles : StyleToggles
  appEntry : String
  pageEntries : List String
  configWebpack : Option (ChainConfig → ChainConfig)

/-- The ambient externals of one process: `process.env.NODE_ENV`,
`__dirname`, the filesystem probe, `require.resolve`, and the matching
semantics of user-supplied regex sources. -/
structure Ambient where
  nodeEnv : Option String
  dirname : String
  fsProbe : String → ProbeResult
  requireResolve : String → String
  regexInterp : String → String → Bool

/-! ## Spec-modelled collaborators (outside `src/`) -/

/-- Modelled from the spec: the extension search order `extensions` from
`../extensions` (outside `src/`) — platform script extensions. -/
def extensions : List String := [".js", ".jsx", ".ts", ".tsx"]

/-- Modelled from the spec: `matcher` from `../extensions` (outside
`src/`) — the broad script-file matcher used by the script and
platform-file rules; matches files with one of the script `extensions`. -/
def matcherTest (f : String) : Bool := extensions.any fun e => strEndsWith f e

/-- The module's style regex `/\.(css|less|sass|stylus)$/i` (line 114). -/
def styleExtTest (f : String) : Bool :=
  [".css", ".less", ".sass", ".stylus"].any fun e => strEndsWith (lowerStr f) e

/-- The module's image regex `/\.(png|jpe?g|gif|svg)$/i` (line 176). -/
def imagesTest (f : String) : Bool :=
  [".png", ".jpg", ".jpeg", ".gif", ".svg"].any fun e => strEndsWith (lowerStr f) e

/-- The matching semantics of each regex value.  The
`remaxDefineRe` literal `/remax\/esm\/createHostComponent.js/i` (line 170)
is modelled with its unescaped dot taken literally — the paths it is
applied to contain the literal dot. -/
def regexMatches (a : Ambient) : RegexV → String → Bool
  | .stylesRe, f => styleExtTest f
  | .jsonRe, f => strEndsWith f ".json"
  | .remaxDefineRe, f => infixOfL "remax/esm/createhostcomponent.js".data (lowerStr f).data
  | .imagesRe, f => imagesTest f
  | .matcherRe, f => matcherTest f
  | .cssModulesRe src, f => a.regexInterp src f

/-- Webpack condition semantics for a stored test value: a string
condition matches paths that start with it (webpack additionally rejects a
falsy condition such as `""` outright at engine time); a regex condition
matches via its regex. -/
def condMatches (a : Ambient) : TestVal → String → Bool
  | .str s, f => strStartsWith f s
  | .regex src, f => a.regexInterp src f

/-- Webpack's rule matching: `test` (when present) must match, some
`include` entry must match (when any is present), and no `exclude` entry
may match. -/
def ruleMatches (a : Ambient) (r : Rule) (f : String) : Bool :=
  (match r.test with
   | none => true
   | some re => regexMatches a re f)
  && (r.includeCond.isEmpty || r.includeCond.any fun v => condMatches a v f)
  && !(r.excludeCond.any fun v => condMatches a v f)

/-- Modelled from the spec: `alias` from `../build/alias` (outside
`src/`) — the resolution alias mapping, pointed at the project source
root.  (Named `aliasOf` because `alias` is a Lean keyword.) -/
def aliasOf (o : RemaxOptions) : List (String × String) :=
  [("@", pathJoin o.cwd o.rootDir)]

/-- JSON-encode a plain string value (no escapes needed for the values
used here). -/
def jsonStr (v : String) : String := "\x22" ++ v ++ "\x22"

/-- Modelled from the spec: `getEnvironment` from `../build/env` (outside
`src/`), §4.2 — a platform-scoped variable mapping plus its stringified
(JSON-encoded) form. -/
def getEnvironment (_o : RemaxOptions) (target : Platform) : Environment :=
  let raw := [("REMAX_PLATFORM", platformName target)]
  ⟨raw, raw.map fun q => (q.1, jsonStr q.2)⟩

/-- Modelled from the spec: `styleConfig.enabled` (outside `src/`) —
whether a given style preprocessor is enabled, per the options'
style-tooling toggles. -/
def styleEnabled (o : RemaxOptions) : String → Bool
  | "less" => o.styleToggles.less
  | "node-sass" => o.styleToggles.nodeSass
  | "stylus" => o.styleToggles.stylus
  | _ => false

/-- Modelled from the spec: `styleConfig.getCssModuleConfig` (outside
`src/`) — yields the `{enabled, regExp}` CSS-module policy carried by the
options (§6). -/
def getCssModuleConfig (c : CssModulesOpt) : CssModulesOpt := c

/-- Modelled from the spec: `styleConfig.resolvePostcssConfig` (outside
`src/`) — the project-resolved postcss config path. -/
def resolvePostcssConfig (o : RemaxOptions) : String :=
  pathJoin o.cwd "postcss.config.js"

/-- Modelled from the spec: `getEntries` from `../getEntries` (outside
`src/`), §4.1 — the app entry and the ordered page entries declared by the
options. -/
def getEntries (o : RemaxOptions) : Entries := ⟨o.appEntry, o.pageEntries⟩

/-- `MiniCssExtractPlugin.loader`: an external constant (the extract
plugin's loader module path). -/
def miniCssLoader : String := "mini-css-extract-plugin/dist/loader"

/-- The identifiers in scope in the module `webpackConfig.web.ts`: its
imports (lines 1–21), its module-level bindings (lines 23, 25, 38, 55) and
the ambient JS globals.  `VirtualModulePlugin` (line 186) and `meta`
(line 203) are referenced but appear nowhere here. -/
def moduleScope : List String :=
  ["path", "fs", "camelCase", "Configuration", "ProgressPlugin", "DefinePlugin",
   "Config", "MiniCssExtractPlugin", "CleanWebpackPlugin", "pxToUnits",
   "RemaxOptions", "Platform", "extensions", "matcher", "getEntries",
   "styleConfig", "app", "page", "nativeComponentsBabelPlugin", "components",
   "RemaxPlugins", "alias", "getEnvironment", "config", "useLoader", "prepare",
   "webpackConfig", "require", "process", "JSON", "console", "__dirname"]

/-- Evaluating a bare identifier: a `ReferenceError` when it is not in
scope. -/
def lookupIdent (id : String) : Except JsError Unit :=
  if moduleScope.contains id then .ok () else .error (.referenceError id)

/-! ## `webpack-chain` builder operations -/

/-- A rule freshly created by `config.module.rule(name)`. -/
def emptyRule (nm : String) : Rule := ⟨nm, none, [], [], []⟩

/-- `config.module.rule(nm)` followed by the chained mutations `f`:
get-or-create by name, preserving order. -/
def rulesUpsert (nm : String) (f : Rule → Rule) (rs : List Rule) : List Rule :=
  if rs.any fun r => r.name = nm then rs.map fun r => if r.name = nm then f r else r
  else rs ++ [f (emptyRule nm)]

def ruleUpsert (nm : String) (f : Rule → Rule) (st : ChainConfig) : ChainConfig :=
  { st with rules := rulesUpsert nm f st.rules }

/-- `.use(nm).loader(loader)` optionally followed by `.options(o)`:
get-or-create the use entry by name; `opts = none` leaves any existing
options untouched (no `.options` call). -/
def useUpsert (nm loader : String) (opts : Option LoaderOpts) (us : List UseEntry) :
    List UseEntry :=
  if us.any fun u => u.name = nm then
    us.map fun u =>
      if u.name = nm then
        ⟨nm, loader,
          match opts with
          | some o2 => some o2
          | none => u.options⟩
      else u
  else us ++ [⟨nm, loader, opts⟩]

/-- `config.entry(nm).add(p)`: get-or-create the entry point, then
`ChainedSet.add` the path. -/
def entryAdd (nm p : String) (eps : List (String × List String)) :
    List (String × List String) :=
  if eps.any fun q => q.1 = nm then
    eps.map fun q => if q.1 = nm then (nm, chainedSetAdd p q.2) else q
  else eps ++ [(nm, [p])]

/-- `config.plugin(nm)` alone: creates the plugin slot if absent (the
`.use(...)` argument may still throw before being applied). -/
def pluginTouch (nm : String) (st : ChainConfig) : ChainConfig :=
  if st.plugins.any fun q => q.1 = nm then st
  else { st with plugins := st.plugins ++ [(nm, PluginV.unconfigured)] }

/-- `config.plugin(nm).use(v)`: get-or-create and set the plugin value. -/
def pluginUse (nm : String) (v : PluginV) (st : ChainConfig) : ChainConfig :=
  if st.plugins.any fun q => q.1 = nm then
    { st with plugins := st.plugins.map fun q => if q.1 = nm then (nm, v) else q }
  else { st with plugins := st.plugins ++ [(nm, v)] }

/-! ## The module's functions -/

/-- Lines 25–36, `useLoader`: probe the conventional local override path
(`path.join(__dirname, './webpack/loaders', camelCase(id) + '.js')`) —
with the `try`/`catch` treating a throwing probe as absent — and fall back
to `require.resolve(id + '-loader')`. -/
def useLoader (a : Ambient) (id : String) : String :=
  let loaderPath := pathJoin (pathJoin a.dirname "./webpack/loaders") (camelCase id ++ ".js")
  match a.fsProbe loaderPath with
  | .found => loaderPath
  | .absent => a.requireResolve (id ++ "-loader")
  | .probeError => a.requireResolve (id ++ "-loader")

/-- Lines 41–42: the logical entry name computed inside `prepare`'s
reduce — strip the first occurrence of `path.join(cwd, rootDir) + '/'`,
then strip the trailing extension via `new RegExp(ext + '$')`. -/
def nameOf (o : RemaxOptions) (entry : String) : String :=
  let ext := extname entry
  stripExtAnchored ext (replaceFirst (pathJoin o.cwd o.rootDir ++ "/") entry)

/-- The record returned by `prepare` (lines 48–52). -/
structure Prepared where
  entries : Entries
  entryMap : List (String × String)
  env : Environment

/-- Lines 38–53, `prepare`: resolve entries, build the entry map by a
reduce with `m[name] = entry` (JS object assignment — last write wins on a
repeated name), and compose the environment. -/
def prepare (o : RemaxOptions) (target : Platform) : Prepared :=
  let entries := getEntries o
  let entryMap :=
    (entries.app :: entries.pages).foldl (fun m e => objAssign m (nameOf o e) e) []
  ⟨entries, entryMap, getEnvironment o target⟩

/-- Lines 60–66: devtool, mode, context, resolve and output settings. -/
def applyBaseSettings (o : RemaxOptions) (a : Ambient) (st : ChainConfig) : ChainConfig :=
  { st with
    devtool := if a.nodeEnv = some "development" then some "cheap-module-source-map" else none,
    mode := match a.nodeEnv with
      | some s => if s = "" then "development" else s
      | none => "development",
    context := o.cwd,
    resolveExtensions := chainedSetMerge st.resolveExtensions extensions,
    resolveAlias := (aliasOf o).foldl (fun m q => objAssign m q.1 q.2) st.resolveAlias,
    outputPath := pathJoin o.cwd o.output,
    outputFilename := "[name].js" }

/-- Lines 68–79: the `createAppOrPageConfig` rule — script matcher, include
set holding the app entry and every page entry, babel use with the
app/page metadata plugins and `reactPreset: false`. -/
def applyAppPageRule (a : Ambient) (es : Entries) (r : Rule) : Rule :=
  { r with
    test := some .matcherRe,
    includeCond := chainedSetMerge (chainedSetAdd (TestVal.str es.app) r.includeCond)
        (es.pages.map TestVal.str),
    uses := useUpsert "babel" (useLoader a "babel")
        (some (.babelOpts [.appPlugin es.app, .pagePlugin es.pages] false)) r.uses }

/-- Lines 81–93: the `compilation` rule — script matcher, babel use with
the native-component and custom-component plugins and `reactPreset: true`. -/
def applyCompilationRule (_o : RemaxOptions) (a : Ambient) (r : Rule) : Rule :=
  { r with
    test := some .matcherRe,
    uses := useUpsert "babel" (useLoader a "babel")
        (some (.babelOpts [.nativeComponentsBabel, .componentsPlugin] true)) r.uses }

/-- One entry of the candidate preprocessor list (lines 96–110). -/
structure PreRule where
  name : String
  loader : String
  opts : Option LoaderOpts
deriving DecidableEq

/-- Lines 96–110, `preprocessCssRules`: postcss always (with the resolved
config path and the px-to-units plugin), then less / node-sass / stylus
each contributing `false` when disabled, then the truthy `.filter(Boolean)`. -/
def preprocessCssRules (o : RemaxOptions) (a : Ambient) : List PreRule :=
  ([some ⟨"postcss", useLoader a "postcss",
      some (.postcssOpts (resolvePostcssConfig o) ["pxToUnits"])⟩,
    if styleEnabled o "less" then some ⟨"less", useLoader a "less", none⟩ else none,
    if styleEnabled o "node-sass" then some ⟨"sass", useLoader a "sass", none⟩ else none,
    if styleEnabled o "stylus" then some ⟨"stylus", useLoader a "stylus", none⟩ else none]
    : List (Option PreRule)).filterMap id

/-- Lines 112–133: the plain `styles` rule — style-extension test, exclude
of the CSS-module regex when enabled (else the empty string, the other arm
of the ternary on line 115), the extract and css uses, then each candidate
preprocessor appended in order (`.options(rule.options || {})`). -/
def applyStylesRule (o : RemaxOptions) (a : Ambient) (r : Rule) : Rule :=
  let cmc := getCssModuleConfig o.cssModules
  let pre := preprocessCssRules o a
  { r with
    test := some .stylesRe,
    excludeCond := chainedSetAdd
        (if cmc.enabled then TestVal.regex cmc.regExpSrc else TestVal.str "") r.excludeCond,
    uses := pre.foldl
        (fun us pr => useUpsert pr.name pr.loader (some (pr.opts.getD .emptyObj)) us)
        (useUpsert "css" (useLoader a "css") (some (.cssOpts pre.length false))
          (useUpsert "cssExtract" miniCssLoader none r.uses)) }

/-- Lines 136–160: the `cssModulesStyles` rule, built only when the module
policy is enabled — the module regex as test and include, the extract use
(named by the loader path itself, line 142), the css use with
`modules: true`, then the candidate preprocessors. -/
def applyCssModulesRule (o : RemaxOptions) (a : Ambient) (r : Rule) : Rule :=
  let cmc := getCssModuleConfig o.cssModules
  let pre := preprocessCssRules o a
  { r with
    test := some (.cssModulesRe cmc.regExpSrc),
    includeCond := chainedSetAdd (TestVal.regex cmc.regExpSrc) r.includeCond,
    uses := pre.foldl
        (fun us pr => useUpsert pr.name pr.loader (some (pr.opts.getD .emptyObj)) us)
        (useUpsert "css" (useLoader a "css") (some (.cssOpts pre.length true))
          (useUpsert miniCssLoader miniCssLoader none r.uses)) }

/-- Lines 162–166: the `json` rule. -/
def applyJsonRule (a : Ambient) (r : Rule) : Rule :=
  { r with
    test := some .jsonRe,
    uses := useUpsert "json" (useLoader a "json") none r.uses }

/-- Lines 168–172: the `remaxDefineVariables` rule. -/
def applyRemaxDefineRule (a : Ambient) (r : Rule) : Rule :=
  { r with
    test := some .remaxDefineRe,
    uses := useUpsert "remax-define" (useLoader a "remax-define") none r.uses }

/-- Lines 174–178: the `images` rule. -/
def applyImagesRule (a : Ambient) (r : Rule) : Rule :=
  { r with
    test := some .imagesRe,
    uses := useUpsert "file" (useLoader a "file") none r.uses }

/-- Lines 180–184: the `resolvePlatformFiles` rule. -/
def applyResolvePlatformRule (a : Ambient) (r : Rule) : Rule :=
  { r with
    test := some .matcherRe,
    uses := useUpsert "resolve-platform" (useLoader a "resolve-platform") none r.uses }

/-- Lines 68–184: the eight rule registrations, in declaration order. -/
def registerRules (o : RemaxOptions) (a : Ambient) (es : Entries) (st : ChainConfig) :
    ChainConfig :=
  let st := ruleUpsert "createAppOrPageConfig" (applyAppPageRule a es) st
  let st := ruleUpsert "compilation" (applyCompilationRule o a) st
  let st := ruleUpsert "styles" (applyStylesRule o a) st
  let st := if (getCssModuleConfig o.cssModules).enabled then
      ruleUpsert "cssModulesStyles" (applyCssModulesRule o a) st
    else st
  let st := ruleUpsert "json" (applyJsonRule a) st
  let st := ruleUpsert "remaxDefineVariables" (applyRemaxDefineRule a) st
  let st := ruleUpsert "images" (applyImagesRule a) st
  ruleUpsert "resolvePlatformFiles" (applyResolvePlatformRule a) st

/-- The outcome of one call of `webpackConfig`: the value it returns (or
the error it throws), the module-level builder state it leaves behind, and
how many times it invoked `options.configWebpack`. -/
structure RunResult where
  result : Except JsError ChainConfig
  state : ChainConfig
  callbackCalls : Nat

/-- Lines 55–217, `webpackConfig`, with the module-level `config` (line
23) passed in and returned explicitly as `st0` / `state`.  After the entry,
settings, rule and `config.plugin('virtualModule')` steps, the argument
expression `VirtualModulePlugin` (line 186) is evaluated; it is not in
`moduleScope`, so a `ReferenceError` is thrown there and every later step
(lines 187–216, including the `meta` reference on line 203 and the
`configWebpack` call on lines 210–212) is dead code, kept here under the
unreachable `.ok` branches. -/
def webpackConfig (options : RemaxOptions) (target : Platform) (a : Ambient)
    (st0 : ChainConfig) : RunResult :=
  let p := prepare options target
  let st := { st0 with entryPoints := entryAdd "index" "src/index.js" st0.entryPoints }
  let st := applyBaseSettings options a st
  let st := registerRules options a p.entries st
  let st := pluginTouch "virtualModule" st
  match lookupIdent "VirtualModulePlugin" with
  | .error e => ⟨.error e, st, 0⟩
  | .ok _ =>
    let st := pluginUse "virtualModule"
        (.virtualModuleP "src/index.js" "\x7b\x22greeting\x22:\x22Hello!\x22\x7d") st
    let st := if options.progress then pluginUse "progress" .progressP st else st
    let st := pluginUse "define" (.defineP p.env.stringified) st
    let st := pluginUse "cssExtract" (.cssExtractP "[name]") st
    let st := pluginTouch "optimizeEntries" st
    match lookupIdent "meta" with
    | .error e => ⟨.error e, st, 0⟩
    | .ok _ =>
      let st := pluginUse "optimizeEntries" .optimizeEntriesP st
      let st := pluginUse "nativeFiles" .nativeFilesP st
      let st := if a.nodeEnv = some "production" then pluginUse "clean" .cleanP st else st
      match options.configWebpack with
      | some f =>
        let st := f st
        ⟨.ok st, st, 1⟩
      | none => ⟨.ok st, st, 0⟩

/-! ## Views used by the claims -/

/-- The plain `styles` rule as first built (from a fresh slot). -/
def stylesRuleOf (o : RemaxOptions) (a : Ambient) : Rule :=
  applyStylesRule o a (emptyRule "styles")

/-- The `cssModulesStyles` rule as first built (from a fresh slot). -/
def cssModulesRuleOf (o : RemaxOptions) (a : Ambient) : Rule :=
  applyCssModulesRule o a (emptyRule "cssModulesStyles")

def appPageRuleOf (o : RemaxOptions) (a : Ambient) : Rule :=
  applyAppPageRule a (getEntries o) (emptyRule "createAppOrPageConfig")

def compilationRuleOf (o : RemaxOptions) (a : Ambient) : Rule :=
  applyCompilationRule o a (emptyRule "compilation")

def jsonRuleOf (a : Ambient) : Rule := applyJsonRule a (emptyRule "json")

def remaxDefineRuleOf (a : Ambient) : Rule :=
  applyRemaxDefineRule a (emptyRule "remaxDefineVariables")

def imagesRuleOf (a : Ambient) : Rule := applyImagesRule a (emptyRule "images")

def resolvePlatformRuleOf (a : Ambient) : Rule :=
  applyResolvePlatformRule a (emptyRule "resolvePlatformFiles")

/-- The exclude set of the `styles` rule held in a builder state. -/
def stylesExcludeOf (st : ChainConfig) : List TestVal :=
  match st.rules.find? fun r => r.name = "styles" with
  | some r => r.excludeCond
  | none => []

/-- Whether the named rule of a builder state matches a file. -/
def ruleMatchesIn (st : ChainConfig) (nm : String) (a : Ambient) (f : String) : Bool :=
  match st.rules.find? fun r => r.name = nm with
  | some r => ruleMatches a r f
  | none => false

/-! ## Spec-side definitions (the spec's words, for the refinement claims) -/

/-- Follows the spec's words (§3, §4.1): the entry path relative to
`cwd/rootDir`. -/
def relPath (o : RemaxOptions) (e : String) : String :=
  ⟨e.data.drop (pathJoin o.cwd o.rootDir ++ "/").data.length⟩

/-- Follows the spec's words (§3): a path with its file extension (its
`extname` suffix) stripped. -/
def stripExtension (s : String) : String :=
  ⟨s.data.take (s.data.length - (extname s).data.length)⟩

/-- Follows the spec's words (§3): "Logical name = entry path relative to
`cwd/rootDir`, with its file extension stripped." -/
def logicalNameSpec (o : RemaxOptions) (e : String) : String :=
  stripExtension (relPath o e)

/-! ## Concrete sample inputs for witnesses and counterexamples -/

/-- A concrete ambient: no NODE_ENV, no local loader overrides, identity
module resolution, and a regex interpretation where the source `"modRe"`
matches `*.module.css` files. -/
def amb0 : Ambient :=
  ⟨none, "/remax-cli/lib/web", fun _ => .absent, fun s => s,
    fun src f => src = "modRe" && strEndsWith f ".module.css"⟩

def toggles0 : StyleToggles := ⟨false, false, false⟩

/-- Sample options with CSS modules enabled. -/
def optsA : RemaxOptions :=
  ⟨"/proj", "src", "dist", ⟨true, "modRe"⟩, false, toggles0,
    "/proj/src/app.js", ["/proj/src/pages/home.js"], none⟩

/-- Same options with CSS modules disabled. -/
def optsB : RemaxOptions := { optsA with cssModules := ⟨false, "modRe"⟩ }

/-- Options with two distinct page files whose logical names collide. -/
def opts3 : RemaxOptions :=
  { optsA with
    cssModules := ⟨false, ""⟩, cwd := "/p", rootDir := "src",
    appEntry := "/p/src/app.js", pageEntries := ["/p/src/a.ts", "/p/src/a.js"] }

/-- Options whose single page file's logical name collides with the app's. -/
def opts5 : RemaxOptions := { opts3 with pageEntries := ["/p/src/app.ts"] }

/-- Options carrying a `configWebpack` callback that appends a marker
plugin. -/
def optsCW : RemaxOptions :=
  { optsB with
    configWebpack :=
      some (fun st => { st with plugins := st.plugins ++ [("marker", PluginV.markerP)] }) }

/-! ## Claim theorems -/

/-- C2: every call of `webpackConfig` raises a runtime error before
returning a configuration — the plugin-registration section references the
identifiers `VirtualModulePlugin` and `meta`, neither of which is imported
or defined anywhere in the module, so the error branch at plugin
registration is always reached and no invocation completes normally. -/
theorem C2_claim :
    (∀ (o : RemaxOptions) (tp : Platform) (a : Ambient) (st : ChainConfig),
      (webpackConfig o tp a st).result
        = Except.error (JsError.referenceError "VirtualModulePlugin"))
    ∧ moduleScope.contains "VirtualModulePlugin" = false
    ∧ moduleScope.contains "meta" = false :=
  ⟨fun _ _ _ _ => rfl, by decide, by decide⟩

/-- C1: evaluation at concrete inputs — the entry mapping of the built
configuration is the fixed, input-independent `index ↦ [src/index.js]` of
line 58 (identical for different options), rather than the `EntryMap`
computed by `prepare`, and the call then throws instead of returning the
configuration.  This contradicts the spec's output contract, which the
computed-but-discarded `entryMap` shows to be the intent. -/
theorem C1_claim_eval :
    (webpackConfig optsA Platform.web amb0 freshConfig).state.entryPoints
        = [("index", ["src/index.js"])]
    ∧ (webpackConfig opts3 Platform.web amb0 freshConfig).state.entryPoints
        = [("index", ["src/index.js"])]
    ∧ (prepare optsA Platform.web).entryMap
        = [("app", "/proj/src/app.js"), ("pages/home", "/proj/src/pages/home.js")]
    ∧ (webpackConfig optsA Platform.web amb0 freshConfig).result
        = Except.error (JsError.referenceError "VirtualModulePlugin") := by
  exact ⟨rfl, rfl, by decide, rfl⟩

/-- C6: `useLoader` returns the conventional local override path when the
filesystem probe finds it; when the probe reports it absent — or the probe
itself fails, which the `try`/`catch` treats as "override absent" — it
returns the externally registered `"<id>-loader"` default binding. -/
theorem C6_claim (a : Ambient) (id : String) :
    (a.fsProbe (pathJoin (pathJoin a.dirname "./webpack/loaders") (camelCase id ++ ".js"))
        = .found →
      useLoader a id
        = pathJoin (pathJoin a.dirname "./webpack/loaders") (camelCase id ++ ".js"))
    ∧ (a.fsProbe (pathJoin (pathJoin a.dirname "./webpack/loaders") (camelCase id ++ ".js"))
        = .absent →
      useLoader a id = a.requireResolve (id ++ "-loader"))
    ∧ (a.fsProbe (pathJoin (pathJoin a.dirname "./webpack/loaders") (camelCase id ++ ".js"))
        = .probeError →
      useLoader a id = a.requireResolve (id ++ "-loader")) := by
  refine ⟨fun h => ?_, fun h => ?_, fun h => ?_⟩ <;> simp [useLoader, h]

/-- C6 witness: with `amb0` (no local override present), the `"css"`
transformer resolves to the default `"css-loader"` binding. -/
theorem C6_claim_witness :
    useLoader amb0 "css" = amb0.requireResolve ("css" ++ "-loader") :=
  (C6_claim amb0 "css").2.1 rfl

/-- C10: evaluation at a concrete input whose `configWebpack` is callable —
the call throws the `VirtualModulePlugin` `ReferenceError` at plugin
registration (line 186), before the callback site on lines 210–212, so the
callback is invoked zero times, not once after all built-in rules and
plugins, and no finalized configuration exists. -/
theorem C10_claim_eval :
    Option.isSome optsCW.configWebpack = true
    ∧ (webpackConfig optsCW Platform.web amb0 freshConfig).callbackCalls = 0
    ∧ (webpackConfig optsCW Platform.web amb0 freshConfig).result
        = Except.error (JsError.referenceError "VirtualModulePlugin") := by
  exact ⟨rfl, rfl, rfl⟩

/-- C8: evaluation at a concrete input with `cssModules.enabled = false` —
no CSS-module rule is present, but the plain style rule's exclude clause is
`[""]` (the other arm of line 115's ternary) rather than empty, and under
webpack's string-condition (prefix) semantics the style file `"a.css"` is
not matched by the plain rule. -/
theorem C8_claim_eval :
    ((webpackConfig optsB Platform.web amb0 freshConfig).state.rules.find? fun r =>
        r.name = "cssModulesStyles") = none
    ∧ stylesExcludeOf (webpackConfig optsB Platform.web amb0 freshConfig).state
        = [TestVal.str ""]
    ∧ styleExtTest "a.css" = true
    ∧ ruleMatchesIn (webpackConfig optsB Platform.web amb0 freshConfig).state
        "styles" amb0 "a.css" = false := by
  exact ⟨by decide, by decide, by decide, by decide⟩

/-- C3: counterexample — options with two *distinct* page files whose
normalized relative paths collide (`/p/src/a.ts` and `/p/src/a.js` both
normalize to `a`): `prepare` raises no configuration-conflict error; it
returns a map in which the later entry has silently overwritten the
earlier one. -/
theorem C3_counterexample :
    nameOf opts3 "/p/src/a.ts" = nameOf opts3 "/p/src/a.js"
    ∧ ("/p/src/a.ts" : String) ≠ "/p/src/a.js"
    ∧ (prepare opts3 Platform.web).entryMap
        = [("app", "/p/src/app.js"), ("a", "/p/src/a.js")] := by
  exact ⟨by decide, by decide, by decide⟩

/-- C5: counterexample — `opts5` has `N = 1` page entries with (trivially)
pairwise-distinct logical names, yet the entry map has 1 entry, not
`N + 1 = 2`: the page's logical name collides with the app's logical name
and overwrites it. -/
theorem C5_counterexample :
    (opts5.pageEntries.Pairwise fun e1 e2 => nameOf opts5 e1 ≠ nameOf opts5 e2)
    ∧ (prepare opts5 Platform.web).entryMap.length ≠ opts5.pageEntries.length + 1 := by
  constructor
  · simp [opts5, opts3]
  · decide

/-- C4: counterexample — the module-level builder persists across calls:
after a call with `optsA` (CSS modules enabled) the builder is no longer
fresh, and a later call with `optsB` (CSS modules disabled) still sees
`optsA`'s module regex in the styles rule's exclude set, unlike the same
`optsB` call made from a fresh builder — so an earlier call with different
options influences a later call's configuration. -/
theorem C4_counterexample :
    (webpackConfig optsA Platform.web amb0 freshConfig).state ≠ freshConfig
    ∧ stylesExcludeOf (webpackConfig optsB Platform.web amb0
          (webpackConfig optsA Platform.web amb0 freshConfig).state).state
        = [TestVal.regex "modRe", TestVal.str ""]
    ∧ stylesExcludeOf (webpackConfig optsB Platform.web amb0 freshConfig).state
        = [TestVal.str ""] := by
  exact ⟨by decide, by decide, by decide⟩

/-! ## Lemmas on JS-object assignment and the entry-map fold -/

lemma objAssign_cons_ne (q : String × String) (t : List (String × String)) (k v : String)
    (hq : q.1 ≠ k) : objAssign (q :: t) k v = q :: objAssign t k v := by
  by_cases ht : t.any fun p => p.1 = k <;>
    simp [objAssign, List.any_cons, hq, ht]

lemma find_map_keyUpdate_ne (t : List (String × String)) (k v n : String) (hn : n ≠ k) :
    ((t.map fun p => if p.1 = k then (k, v) else p).find? fun p => p.1 = n)
      = t.find? fun p => p.1 = n := by
  induction t with
  | nil => rfl
  | cons p t ih =>
    rw [List.map_cons]
    by_cases hp : p.1 = k
    · have hkn : ¬ ((k, v).1 = n) := fun h => hn h.symm
      have hpn : ¬ (p.1 = n) := fun h => hn (h.symm.trans hp)
      rw [if_pos hp, List.find?_cons_of_neg _ (by simpa using hkn),
        List.find?_cons_of_neg _ (by simpa using hpn), ih]
    · rw [if_neg hp]
      by_cases hpn : p.1 = n
      · rw [List.find?_cons_of_pos _ (by simpa using hpn),
          List.find?_cons_of_pos _ (by simpa using hpn)]
      · rw [List.find?_cons_of_neg _ (by simpa using hpn),
          List.find?_cons_of_neg _ (by simpa using hpn), ih]

lemma lookupAssoc_objAssign (m : List (String × String)) (k v n : String) :
    lookupAssoc (objAssign m k v) n = if n = k then some v else lookupAssoc m n := by
  induction m with
  | nil =>
    have h0 : objAssign [] k v = [(k, v)] := rfl
    rw [h0]
    rcases eq_or_ne n k with rfl | h
    · rw [if_pos rfl]
      unfold lookupAssoc
      rw [List.find?_cons_of_pos _ (by simp)]
      rfl
    · rw [if_neg h]
      unfold lookupAssoc
      rw [List.find?_cons_of_neg _ (by simpa using fun h2 => h h2.symm)]
  | cons q t ih =>
    by_cases hq : q.1 = k
    · have hany : (q :: t).any (fun p => p.1 = k) = true := by
        simp [List.any_cons, hq]
      have hmap : objAssign (q :: t) k v
          = (k, v) :: (t.map fun p => if p.1 = k then (k, v) else p) := by
        unfold objAssign
        rw [if_pos hany, List.map_cons, if_pos hq]
      rw [hmap]
      rcases eq_or_ne n k with rfl | hn
      · rw [if_pos rfl]
        unfold lookupAssoc
        rw [List.find?_cons_of_pos _ (by simp)]
        rfl
      · rw [if_neg hn]
        unfold lookupAssoc
        rw [List.find?_cons_of_neg _ (by simpa using fun h2 => hn h2.symm)]
        rw [find_map_keyUpdate_ne t k v n hn]
        have hqn : ¬ (q.1 = n) := fun h => hn ((hq.symm.trans h).symm)
        rw [List.find?_cons_of_neg _ (by simpa using hqn)]
    · rw [objAssign_cons_ne q t k v hq]
      unfold lookupAssoc
      by_cases hqn : q.1 = n
      · have hn : n ≠ k := fun h => hq (hqn.trans h)
        rw [List.find?_cons_of_pos _ (by simpa using hqn),
          List.find?_cons_of_pos _ (by simpa using hqn), if_neg hn]
      · rw [List.find?_cons_of_neg _ (by simpa using hqn),
          List.find?_cons_of_neg _ (by simpa using hqn)]
        have h2 := ih
        unfold lookupAssoc at h2
        exact h2

lemma find_append_match (p : α → Bool) (l1 l2 : List α) :
    (l1 ++ l2).find? p =
      match l1.find? p with
      | some x => some x
      | none => l2.find? p := by
  induction l1 with
  | nil => simp
  | cons a t ih =>
    rw [List.cons_append]
    by_cases h : p a = true
    · rw [List.find?_cons_of_pos _ h, List.find?_cons_of_pos _ h]
    · have h2 : ¬ (p a = true) := h
      rw [List.find?_cons_of_neg _ h2, List.find?_cons_of_neg _ h2, ih]

lemma lookupAssoc_foldl_objAssign (f : String → String) (l : List String)
    (m : List (String × String)) (n : String) :
    lookupAssoc (l.foldl (fun acc e => objAssign acc (f e) e) m) n =
      match l.reverse.find? fun e => f e = n with
      | some e => some e
      | none => lookupAssoc m n := by
  induction l generalizing m with
  | nil => simp
  | cons e t ih =>
    simp only [List.foldl_cons, List.reverse_cons]
    rw [ih, find_append_match]
    cases h : t.reverse.find? fun x => f x = n with
    | some x => rfl
    | none =>
      rw [lookupAssoc_objAssign]
      by_cases hfe : f e = n
      · rw [List.find?_cons_of_pos _ (by simpa using hfe), if_pos hfe.symm]
      · rw [List.find?_cons_of_neg _ (by simpa using hfe), if_neg (fun h2 => hfe h2.symm)]
        rfl

/-- C3 (amended): on a logical-name collision `prepare` raises no
configuration-conflict error — the reduce merges silently, binding each
logical name to the *last* entry (the app first, then the pages in order)
that normalizes to it, later entries overwriting earlier ones. -/
theorem C3_claim_amended (o : RemaxOptions) (tp : Platform) (n : String) :
    lookupAssoc (prepare o tp).entryMap n =
      (o.appEntry :: o.pageEntries).reverse.find? fun e => nameOf o e = n := by
  have h : (prepare o tp).entryMap =
      (o.appEntry :: o.pageEntries).foldl (fun m e => objAssign m (nameOf o e) e) [] := rfl
  rw [h, lookupAssoc_foldl_objAssign]
  cases hf : (o.appEntry :: o.pageEntries).reverse.find? fun e => nameOf o e = n with
  | some x => rfl
  | none => rfl

/-! ## C9: the plain style chain -/

/-- C9: the plain style rule's loader sequence is the extraction transform,
then the base css transform whose `importLoaders` option equals the number
of candidate preprocessors, then each candidate preprocessor in the fixed
order — postcss always present and first, followed by less, sass and
stylus, each present exactly when enabled by the options. -/
theorem C9_claim (o : RemaxOptions) (a : Ambient) :
    (stylesRuleOf o a).uses =
      ([⟨"cssExtract", miniCssLoader, none⟩,
        ⟨"css", useLoader a "css",
          some (.cssOpts (preprocessCssRules o a).length false)⟩] : List UseEntry)
      ++ ((preprocessCssRules o a).map fun pr =>
          (⟨pr.name, pr.loader, some (pr.opts.getD .emptyObj)⟩ : UseEntry))
    ∧ (preprocessCssRules o a).map PreRule.name =
        "postcss" :: ((if styleEnabled o "less" then ["less"] else [])
          ++ (if styleEnabled o "node-sass" then ["sass"] else [])
          ++ (if styleEnabled o "stylus" then ["stylus"] else []))
    ∧ (preprocessCssRules o a).length =
        1 + ((if styleEnabled o "less" then 1 else 0)
          + (if styleEnabled o "node-sass" then 1 else 0)
          + (if styleEnabled o "stylus" then 1 else 0)) := by
  obtain ⟨cwd, rootDir, out, cm, prog, ⟨l, ns, sty⟩, appE, pagesE, cb⟩ := o
  cases l <;> cases ns <;> cases sty <;> exact ⟨rfl, rfl, rfl⟩

/-! ## The rule list built from a fresh builder -/

lemma webpackConfig_state_eq (o : RemaxOptions) (tp : Platform) (a : Ambient)
    (st : ChainConfig) :
    (webpackConfig o tp a st).state =
      pluginTouch "virtualModule"
        (registerRules o a (getEntries o)
          (applyBaseSettings o a
            { st with entryPoints := entryAdd "index" "src/index.js" st.entryPoints })) := rfl

lemma rules_webpackConfig_fresh (o : RemaxOptions) (tp : Platform) (a : Ambient) :
    (webpackConfig o tp a freshConfig).state.rules =
      [appPageRuleOf o a, compilationRuleOf o a, stylesRuleOf o a]
      ++ (if o.cssModules.enabled then [cssModulesRuleOf o a] else [])
      ++ [jsonRuleOf a, remaxDefineRuleOf a, imagesRuleOf a, resolvePlatformRuleOf a] := by
  rw [webpackConfig_state_eq]
  cases hen : o.cssModules.enabled
  · show (pluginTouch _ (registerRules _ _ _ _)).rules = _
    unfold registerRules
    simp only [getCssModuleConfig, hen, Bool.false_eq_true, if_false]
    rfl
  · show (pluginTouch _ (registerRules _ _ _ _)).rules = _
    unfold registerRules
    simp only [getCssModuleConfig, hen, if_true]
    rfl

/-! ## C7: mutual exclusion of the two style rules -/

lemma find_cssModules_fresh (o : RemaxOptions) (tp : Platform) (a : Ambient)
    (hen : o.cssModules.enabled = true) :
    ((webpackConfig o tp a freshConfig).state.rules.find? fun r =>
        r.name = "cssModulesStyles") = some (cssModulesRuleOf o a) := by
  rw [rules_webpackConfig_fresh, hen]
  rfl

lemma find_styles_fresh (o : RemaxOptions) (tp : Platform) (a : Ambient) :
    ((webpackConfig o tp a freshConfig).state.rules.find? fun r =>
        r.name = "styles") = some (stylesRuleOf o a) := by
  rw [rules_webpackConfig_fresh]
  rfl

/-- C7: when `cssModules.enabled` is true, a file matching the module
regex is claimed by exactly one of the two style rules — the module rule —
and never by the plain rule, whose exclude clause carries the module
regex. -/
theorem C7_claim (o : RemaxOptions) (tp : Platform) (a : Ambient) (f : String)
    (hen : o.cssModules.enabled = true)
    (hm : a.regexInterp o.cssModules.regExpSrc f = true) :
    ruleMatchesIn (webpackConfig o tp a freshConfig).state "cssModulesStyles" a f = true
    ∧ ruleMatchesIn (webpackConfig o tp a freshConfig).state "styles" a f = false := by
  constructor
  · unfold ruleMatchesIn
    rw [find_cssModules_fresh o tp a hen]
    simp [cssModulesRuleOf, applyCssModulesRule, emptyRule, getCssModuleConfig,
      ruleMatches, regexMatches, condMatches, chainedSetAdd, hm]
  · unfold ruleMatchesIn
    rw [find_styles_fresh o tp a]
    simp [stylesRuleOf, applyStylesRule, emptyRule, getCssModuleConfig,
      ruleMatches, condMatches, chainedSetAdd, hen, hm]

/-- C7 witness: with `optsA` (modules enabled, regex source `"modRe"`,
which under `amb0` matches `*.module.css`), the file `x.module.css` is
claimed by the module rule and not by the plain rule. -/
theorem C7_claim_witness :
    ruleMatchesIn (webpackConfig optsA Platform.web amb0 freshConfig).state
        "cssModulesStyles" amb0 "x.module.css" = true
    ∧ ruleMatchesIn (webpackConfig optsA Platform.web amb0 freshConfig).state
        "styles" amb0 "x.module.css" = false :=
  C7_claim optsA Platform.web amb0 "x.module.css" rfl (by decide)

/-! ## C4: persistence of the shared builder across calls -/

lemma any_eq_isSome_find (p : Rule → Bool) (rs : List Rule) :
    rs.any p = (rs.find? p).isSome := by
  induction rs with
  | nil => rfl
  | cons r t ih =>
    by_cases h : p r = true
    · rw [List.any_cons, List.find?_cons_of_pos _ h, h, Bool.true_or]
      rfl
    · have h2 : p r = false := eq_false_of_ne_true h
      rw [List.any_cons, List.find?_cons_of_neg _ h, h2, Bool.false_or, ih]

lemma find_map_upsert_ne (nm tgt : String) (f : Rule → Rule)
    (hf : ∀ r, (f r).name = r.name) (hne : nm ≠ tgt) (rs : List Rule) :
    ((rs.map fun r => if r.name = nm then f r else r).find? fun r => r.name = tgt)
      = rs.find? fun r => r.name = tgt := by
  induction rs with
  | nil => rfl
  | cons r t ih =>
    rw [List.map_cons]
    by_cases hr : r.name = nm
    · have h1 : ¬ ((f r).name = tgt) := by rw [hf r, hr]; exact hne
      have h2 : ¬ (r.name = tgt) := by rw [hr]; exact hne
      rw [if_pos hr, List.find?_cons_of_neg _ (by simpa using h1),
        List.find?_cons_of_neg _ (by simpa using h2), ih]
    · rw [if_neg hr]
      by_cases ht : r.name = tgt
      · rw [List.find?_cons_of_pos _ (by simpa using ht),
          List.find?_cons_of_pos _ (by simpa using ht)]
      · rw [List.find?_cons_of_neg _ (by simpa using ht),
          List.find?_cons_of_neg _ (by simpa using ht), ih]

lemma find_map_upsert_self (nm : String) (f : Rule → Rule)
    (hf : ∀ r, (f r).name = r.name) (rs : List Rule) :
    ((rs.map fun r => if r.name = nm then f r else r).find? fun r => r.name = nm)
      = (rs.find? fun r => r.name = nm).map f := by
  induction rs with
  | nil => rfl
  | cons r t ih =>
    rw [List.map_cons]
    by_cases hr : r.name = nm
    · rw [if_pos hr, List.find?_cons_of_pos _ (by simpa using (hf r).trans hr),
        List.find?_cons_of_pos _ (by simpa using hr)]
      rfl
    · rw [if_neg hr, List.find?_cons_of_neg _ (by simpa using hr),
        List.find?_cons_of_neg _ (by simpa using hr), ih]

lemma find_append_none (p : α → Bool) (l1 l2 : List α) (h : l1.find? p = none) :
    (l1 ++ l2).find? p = l2.find? p := by
  rw [find_append_match, h]

lemma find_styles_rulesUpsert_ne (nm : String) (f : Rule → Rule) (rs : List Rule)
    (hf : ∀ r, (f r).name = r.name) (hne : nm ≠ "styles") :
    ((rulesUpsert nm f rs).find? fun r => r.name = "styles")
      = rs.find? fun r => r.name = "styles" := by
  unfold rulesUpsert
  by_cases hany : (rs.any fun r => r.name = nm) = true
  · rw [if_pos hany, find_map_upsert_ne nm "styles" f hf hne rs]
  · rw [if_neg hany]
    cases h : rs.find? fun r => r.name = "styles" with
    | some x =>
      rw [find_append_match, h]
    | none =>
      rw [find_append_none _ _ _ h]
      have h1 : ¬ ((f (emptyRule nm)).name = "styles") := by
        rw [hf (emptyRule nm)]; exact hne
      rw [List.find?_cons_of_neg _ (by simpa using h1)]
      rfl

lemma find_styles_rulesUpsert_self (g : Rule → Rule) (hg : ∀ r, (g r).name = r.name)
    (rs : List Rule) :
    ((rulesUpsert "styles" g rs).find? fun r => r.name = "styles")
      = some (g ((rs.find? fun r => r.name = "styles").getD (emptyRule "styles"))) := by
  unfold rulesUpsert
  by_cases hany : (rs.any fun r => r.name = "styles") = true
  · rw [if_pos hany, find_map_upsert_self "styles" g hg rs]
    have hs : (rs.find? fun r => r.name = "styles").isSome = true := by
      rw [← any_eq_isSome_find]; exact hany
    cases h : rs.find? fun r => r.name = "styles" with
    | some r0 => rfl
    | none => rw [h] at hs; simp at hs
  · rw [if_neg hany]
    have hn : (rs.find? fun r => r.name = "styles") = none := by
      cases h : rs.find? fun r => r.name = "styles" with
      | some r0 => exact absurd (by rw [any_eq_isSome_find, h]; rfl) hany
      | none => rfl
    rw [find_append_none _ _ _ hn, hn]
    have h1 : (g (emptyRule "styles")).name = "styles" := hg (emptyRule "styles")
    rw [List.find?_cons_of_pos _ (by simpa using h1)]
    rfl

lemma stylesExcludeOf_ruleUpsert_ne (nm : String) (f : Rule → Rule) (st : ChainConfig)
    (hf : ∀ r, (f r).name = r.name) (hne : nm ≠ "styles") :
    stylesExcludeOf (ruleUpsert nm f st) = stylesExcludeOf st := by
  unfold stylesExcludeOf
  have h1 : (ruleUpsert nm f st).rules = rulesUpsert nm f st.rules := rfl
  rw [h1, find_styles_rulesUpsert_ne nm f st.rules hf hne]

lemma stylesExcludeOf_ruleUpsert_styles (o : RemaxOptions) (a : Ambient)
    (st : ChainConfig) :
    stylesExcludeOf (ruleUpsert "styles" (applyStylesRule o a) st) =
      chainedSetAdd
        (if o.cssModules.enabled then TestVal.regex o.cssModules.regExpSrc
         else TestVal.str "")
        (stylesExcludeOf st) := by
  unfold stylesExcludeOf
  have h1 : (ruleUpsert "styles" (applyStylesRule o a) st).rules
      = rulesUpsert "styles" (applyStylesRule o a) st.rules := rfl
  rw [h1, find_styles_rulesUpsert_self (applyStylesRule o a) (fun r => rfl) st.rules]
  cases h : st.rules.find? fun r => r.name = "styles" with
  | some r0 => rfl
  | none => rfl

lemma stylesExcludeOf_pluginTouch (nm : String) (st : ChainConfig) :
    stylesExcludeOf (pluginTouch nm st) = stylesExcludeOf st := by
  unfold pluginTouch
  by_cases h : (st.plugins.any fun q => q.1 = nm) = true
  · rw [if_pos h]
  · rw [if_neg h]
    rfl

lemma stylesExcludeOf_registerRules (o : RemaxOptions) (a : Ambient) (es : Entries)
    (st : ChainConfig) :
    stylesExcludeOf (registerRules o a es st) =
      chainedSetAdd
        (if o.cssModules.enabled then TestVal.regex o.cssModules.regExpSrc
         else TestVal.str "")
        (stylesExcludeOf st) := by
  simp only [registerRules]
  rw [stylesExcludeOf_ruleUpsert_ne "resolvePlatformFiles" (applyResolvePlatformRule a) _
      (fun r => rfl) (by decide),
    stylesExcludeOf_ruleUpsert_ne "images" (applyImagesRule a) _ (fun r => rfl) (by decide),
    stylesExcludeOf_ruleUpsert_ne "remaxDefineVariables" (applyRemaxDefineRule a) _
      (fun r => rfl) (by decide),
    stylesExcludeOf_ruleUpsert_ne "json" (applyJsonRule a) _ (fun r => rfl) (by decide)]
  by_cases hen : (getCssModuleConfig o.cssModules).enabled = true
  · rw [if_pos hen,
      stylesExcludeOf_ruleUpsert_ne "cssModulesStyles" (applyCssModulesRule o a) _
        (fun r => rfl) (by decide),
      stylesExcludeOf_ruleUpsert_styles,
      stylesExcludeOf_ruleUpsert_ne "compilation" (applyCompilationRule o a) _
        (fun r => rfl) (by decide),
      stylesExcludeOf_ruleUpsert_ne "createAppOrPageConfig" (applyAppPageRule a es) _
        (fun r => rfl) (by decide)]
  · rw [if_neg hen,
      stylesExcludeOf_ruleUpsert_styles,
      stylesExcludeOf_ruleUpsert_ne "compilation" (applyCompilationRule o a) _
        (fun r => rfl) (by decide),
      stylesExcludeOf_ruleUpsert_ne "createAppOrPageConfig" (applyAppPageRule a es) _
        (fun r => rfl) (by decide)]

lemma stylesExcludeOf_webpackConfig (o : RemaxOptions) (tp : Platform) (a : Ambient)
    (st : ChainConfig) :
    stylesExcludeOf (webpackConfig o tp a st).state =
      chainedSetAdd
        (if o.cssModules.enabled then TestVal.regex o.cssModules.regExpSrc
         else TestVal.str "")
        (stylesExcludeOf st) := by
  rw [webpackConfig_state_eq, stylesExcludeOf_pluginTouch, stylesExcludeOf_registerRules]
  rfl

lemma mem_chainedSetAdd_self [DecidableEq α] (x : α) (l : List α) :
    x ∈ chainedSetAdd x l := by
  unfold chainedSetAdd
  by_cases h : x ∈ l
  · rw [if_pos h]; exact h
  · rw [if_neg h]; exact List.mem_append_right _ (List.mem_singleton.mpr rfl)

lemma mem_chainedSetAdd_of_mem [DecidableEq α] (x y : α) (l : List α) (h : x ∈ l) :
    x ∈ chainedSetAdd y l := by
  unfold chainedSetAdd
  by_cases h2 : y ∈ l
  · rw [if_pos h2]; exact h
  · rw [if_neg h2]; exact List.mem_append_left _ h

lemma eq_or_mem_of_mem_chainedSetAdd [DecidableEq α] (x y : α) (l : List α)
    (h : x ∈ chainedSetAdd y l) : x ∈ l ∨ x = y := by
  unfold chainedSetAdd at h
  by_cases h2 : y ∈ l
  · rw [if_pos h2] at h; exact .inl h
  · rw [if_neg h2] at h
    rcases List.mem_append.mp h with h3 | h3
    · exact .inl h3
    · exact .inr (List.mem_singleton.mp h3)

/-- C4 (amended): `webpackConfig` is a deterministic function of the
options, platform, ambient environment and the *inherited* module-level
builder state, but that builder is shared and mutated in place: state
persists across invocations, so an earlier call with different options
does influence a later call's accumulated configuration — a previous
call's CSS-module exclude pattern is still present in the styles rule's
exclude set of a later call that disabled CSS modules, whereas the same
later call made from the given initial state does not contain it. -/
theorem C4_claim_amended (oA oB : RemaxOptions) (t1 t2 : Platform) (a : Ambient)
    (st : ChainConfig) (hen : oA.cssModules.enabled = true)
    (hdis : oB.cssModules.enabled = false)
    (hfresh : TestVal.regex oA.cssModules.regExpSrc ∉ stylesExcludeOf st) :
    TestVal.regex oA.cssModules.regExpSrc ∈
      stylesExcludeOf (webpackConfig oB t2 a (webpackConfig oA t1 a st).state).state
    ∧ TestVal.regex oA.cssModules.regExpSrc ∉
      stylesExcludeOf (webpackConfig oB t2 a st).state := by
  have hA := stylesExcludeOf_webpackConfig oA t1 a st
  have hB := stylesExcludeOf_webpackConfig oB t2 a (webpackConfig oA t1 a st).state
  have hB0 := stylesExcludeOf_webpackConfig oB t2 a st
  simp only [hen, if_true] at hA
  simp only [hdis, Bool.false_eq_true, if_false] at hB hB0
  constructor
  · rw [hB, hA]
    exact mem_chainedSetAdd_of_mem _ _ _ (mem_chainedSetAdd_self _ _)
  · rw [hB0]
    intro hmem
    rcases eq_or_mem_of_mem_chainedSetAdd _ _ _ hmem with h3 | h3
    · exact hfresh h3
    · exact TestVal.noConfusion h3

/-- C4 witness: concrete instance — after an `optsA` call (modules
enabled) a subsequent `optsB` call still carries `optsA`'s module regex in
its styles exclude set; the same `optsB` call from a fresh builder does
not. -/
theorem C4_claim_amended_witness :
    TestVal.regex optsA.cssModules.regExpSrc ∈
      stylesExcludeOf (webpackConfig optsB Platform.web amb0
        (webpackConfig optsA Platform.web amb0 freshConfig).state).state
    ∧ TestVal.regex optsA.cssModules.regExpSrc ∉
      stylesExcludeOf (webpackConfig optsB Platform.web amb0 freshConfig).state :=
  C4_claim_amended optsA optsB Platform.web Platform.web amb0 freshConfig rfl rfl
    (by decide)

/-! ## C5: the name computation agrees with the spec's logical name -/

lemma replaceFirstL_of_isPrefix (pat s : List Char) (h : pat.isPrefixOf s = true) :
    replaceFirstL pat s = s.drop pat.length := by
  cases s with
  | nil =>
    cases pat with
    | nil => rfl
    | cons a b => simp [List.isPrefixOf] at h
  | cons c t =>
    unfold replaceFirstL
    rw [if_pos h]

lemma takeWhile_append_head_false (p : Char → Bool) (l1 l2 : List Char) (c0 : Char)
    (h : p c0 = false) : (l1 ++ c0 :: l2).takeWhile p = l1.takeWhile p := by
  induction l1 with
  | nil => simp [List.takeWhile_cons, h]
  | cons a t ih =>
    rw [List.cons_append, List.takeWhile_cons, List.takeWhile_cons, ih]

lemma basenameL_append_slash (q rel : List Char) :
    basenameL (q ++ '/' :: rel) = basenameL rel := by
  unfold basenameL
  rw [List.reverse_append, List.reverse_cons, List.append_assoc, List.singleton_append,
    takeWhile_append_head_false _ _ _ '/' (by decide)]

lemma extnameL_congr (s1 s2 : List Char) (h : basenameL s1 = basenameL s2) :
    extnameL s1 = extnameL s2 := by
  simp only [extnameL]
  rw [h]

lemma dropWhile_head_not (p : Char → Bool) (l : List Char) (a : Char) (t : List Char)
    (h : l.dropWhile p = a :: t) : p a = false := by
  induction l with
  | nil => simp [List.dropWhile] at h
  | cons b u ih =>
    rw [List.dropWhile_cons] at h
    by_cases hb : p b = true
    · rw [if_pos hb] at h
      exact ih h
    · rw [if_neg hb] at h
      injection h with h1 h2
      subst h1
      exact eq_false_of_ne_true hb

lemma basenameL_isSuffix (s : List Char) : ∃ s0, s = s0 ++ basenameL s := by
  unfold basenameL
  have h : (s.reverse.takeWhile fun c => c != '/')
      ++ (s.reverse.dropWhile fun c => c != '/') = s.reverse :=
    List.takeWhile_append_dropWhile _ _
  refine ⟨(s.reverse.dropWhile fun c => c != '/').reverse, ?_⟩
  have h2 := congrArg List.reverse h
  rw [List.reverse_append, List.reverse_reverse] at h2
  exact h2.symm

lemma extnameL_isSuffix (s : List Char) : ∃ t, s = t ++ extnameL s := by
  by_cases h : (basenameL s).length
      ≤ ((basenameL s).reverse.takeWhile fun c => c != '.').length + 1
  · refine ⟨s, ?_⟩
    simp only [extnameL]
    rw [if_pos h, List.append_nil]
  · obtain ⟨s0, hs0⟩ := basenameL_isSuffix s
    have hsplit : ((basenameL s).reverse.takeWhile fun c => c != '.')
        ++ ((basenameL s).reverse.dropWhile fun c => c != '.') = (basenameL s).reverse :=
      List.takeWhile_append_dropWhile _ _
    cases hd : (basenameL s).reverse.dropWhile fun c => c != '.' with
    | nil =>
      exfalso
      apply h
      have hlen2 := congrArg List.length hsplit
      rw [hd, List.append_nil, List.length_reverse] at hlen2
      rw [← hlen2]
      omega
    | cons d rest =>
      have hdot : (d != '.') = false :=
        dropWhile_head_not (fun c => c != '.') (basenameL s).reverse d rest hd
      have hd2 : d = '.' := by simpa using hdot
      subst hd2
      have hbr : (basenameL s).reverse
          = ((basenameL s).reverse.takeWhile fun c => c != '.') ++ '.' :: rest := by
        rw [hd] at hsplit
        exact hsplit.symm
      have hb2 : basenameL s
          = rest.reverse
            ++ '.' :: ((basenameL s).reverse.takeWhile fun c => c != '.').reverse := by
        have h3 := congrArg List.reverse hbr
        rw [List.reverse_reverse, List.reverse_append, List.reverse_cons,
          List.append_assoc, List.singleton_append] at h3
        exact h3
      have hext : extnameL s
          = '.' :: ((basenameL s).reverse.takeWhile fun c => c != '.').reverse := by
        simp only [extnameL]
        rw [if_neg h]
      refine ⟨s0 ++ rest.reverse, ?_⟩
      calc s = s0 ++ basenameL s := hs0
        _ = s0 ++ (rest.reverse
              ++ '.' :: ((basenameL s).reverse.takeWhile fun c => c != '.').reverse) :=
            congrArg (fun z => s0 ++ z) hb2
        _ = (s0 ++ rest.reverse)
              ++ '.' :: ((basenameL s).reverse.takeWhile fun c => c != '.').reverse :=
            (List.append_assoc s0 rest.reverse _).symm
        _ = (s0 ++ rest.reverse) ++ extnameL s :=
            congrArg (fun z => (s0 ++ rest.reverse) ++ z) hext.symm

lemma zip_self_all_charMatches (l : List Char) :
    ((l.zip l).all fun pc => charMatches pc.1 pc.2) = true := by
  induction l with
  | nil => rfl
  | cons c t ih =>
    rw [List.zip_cons_cons, List.all_cons, ih]
    simp [charMatches]

lemma patSuffixMatches_append (pat t : List Char) :
    patSuffixMatches pat (t ++ pat) = true := by
  unfold patSuffixMatches
  have h2 : (t ++ pat).length - pat.length = t.length := by
    simp [List.length_append]
  rw [h2]
  have h3 : (t ++ pat).drop t.length = pat := List.drop_left t pat
  rw [h3, zip_self_all_charMatches]
  simp [List.length_append]

lemma stripExtAnchored_append (ext t : List Char) :
    stripExtAnchored ⟨ext⟩ ⟨t ++ ext⟩ = ⟨t⟩ := by
  unfold stripExtAnchored
  have hc : patSuffixMatches (String.mk ext).data (String.mk (t ++ ext)).data = true :=
    patSuffixMatches_append ext t
  rw [if_pos hc]
  have hlen : (String.mk (t ++ ext)).data.length - (String.mk ext).data.length
      = t.length := by
    show (t ++ ext).length - ext.length = t.length
    simp [List.length_append]
  rw [hlen]
  exact congrArg String.mk (List.take_left t ext)

lemma nameOf_eq_logicalNameSpec (o : RemaxOptions) (e : String)
    (h : strStartsWith e (pathJoin o.cwd o.rootDir ++ "/") = true) :
    nameOf o e = logicalNameSpec o e := by
  obtain ⟨rel, hrel⟩ : (pathJoin o.cwd o.rootDir ++ "/").data <+: e.data :=
    List.isPrefixOf_iff_prefix.mp h
  have hdata : (pathJoin o.cwd o.rootDir ++ "/").data
      = (pathJoin o.cwd o.rootDir).data ++ ['/'] := by
    rw [String.data_append]
  have hshape : e.data = (pathJoin o.cwd o.rootDir).data ++ '/' :: rel := by
    rw [← hrel, hdata, List.append_assoc, List.singleton_append]
  have hbase : basenameL e.data = basenameL rel := by
    rw [hshape]
    exact basenameL_append_slash _ rel
  have hext : extnameL e.data = extnameL rel := extnameL_congr _ _ hbase
  obtain ⟨t, ht⟩ := extnameL_isSuffix rel
  have hrep : replaceFirst (pathJoin o.cwd o.rootDir ++ "/") e = ⟨rel⟩ := by
    unfold replaceFirst
    rw [replaceFirstL_of_isPrefix _ _ h, ← hrel, List.drop_left]
  have hname : nameOf o e = stripExtAnchored ⟨extnameL rel⟩ ⟨rel⟩ := by
    unfold nameOf
    rw [hrep]
    have hx : extname e = (⟨extnameL rel⟩ : String) := by
      unfold extname
      rw [hext]
    rw [hx]
  have hstrip : stripExtAnchored ⟨extnameL rel⟩ ⟨rel⟩ = (⟨t⟩ : String) := by
    have h2 := stripExtAnchored_append (extnameL rel) t
    rw [← ht] at h2
    exact h2
  have hrel2 : relPath o e = (⟨rel⟩ : String) := by
    unfold relPath
    rw [← hrel, List.drop_left]
  have hspec : logicalNameSpec o e = (⟨t⟩ : String) := by
    unfold logicalNameSpec
    rw [hrel2]
    unfold stripExtension
    have hdata2 : (extname (⟨rel⟩ : String)).data = extnameL rel := rfl
    have hdata3 : (⟨rel⟩ : String).data = rel := rfl
    rw [hdata2, hdata3]
    have hlen : rel.length - (extnameL rel).length = t.length := by
      have h4 := congrArg List.length ht
      rw [List.length_append] at h4
      omega
    rw [hlen]
    have htake : rel.take t.length = t := by
      conv_lhs => rw [ht]
      exact List.take_left t (extnameL rel)
    rw [htake]
  rw [hname, hstrip, hspec]

lemma foldl_objAssign_nodup (f : String → String) :
    ∀ (l : List String) (m : List (String × String)),
      (∀ e ∈ l, (m.any fun q => q.1 = f e) = false) →
      (l.Pairwise fun e1 e2 => f e1 ≠ f e2) →
      l.foldl (fun acc e => objAssign acc (f e) e) m = m ++ l.map fun e => (f e, e) := by
  intro l
  induction l with
  | nil =>
    intro m _ _
    simp
  | cons e t ih =>
    intro m h1 h2
    rw [List.foldl_cons]
    have he : (m.any fun q => q.1 = f e) = false := h1 e (List.mem_cons_self e t)
    have hstep : objAssign m (f e) e = m ++ [(f e, e)] := by
      unfold objAssign
      rw [if_neg (by simp [he])]
    have hh1 : ∀ x ∈ t, ((m ++ [(f e, e)]).any fun q => q.1 = f x) = false := by
      intro x hx
      have hmx : (m.any fun q => q.1 = f x) = false := h1 x (List.mem_cons_of_mem e hx)
      have hne : f e ≠ f x := (List.pairwise_cons.mp h2).1 x hx
      simp [List.any_append, hmx, hne]
    rw [hstep, ih (m ++ [(f e, e)]) hh1 (List.Pairwise.of_cons h2)]
    simp

/-- C5 (amended): for every valid BuildOptions (each entry lying under
`cwd/rootDir`) whose app *and* N page entries all have pairwise-distinct
logical names, the EntryMap built by `prepare` lists the app and pages in
order — exactly N+1 entries, each key unique, each key equal to that
entry's path relative to `cwd/rootDir` with its file extension stripped,
mapped to the entry's original path.  (The claim as stated constrains only
the page names pairwise; a page whose logical name collides with the app's
makes the count N, not N+1 — see the counterexample.) -/
theorem C5_claim_amended (o : RemaxOptions) (tp : Platform)
    (hpre : ∀ e ∈ o.appEntry :: o.pageEntries,
      strStartsWith e (pathJoin o.cwd o.rootDir ++ "/") = true)
    (hdist : (o.appEntry :: o.pageEntries).Pairwise
      fun e1 e2 => nameOf o e1 ≠ nameOf o e2) :
    (prepare o tp).entryMap
        = (o.appEntry :: o.pageEntries).map (fun e => (logicalNameSpec o e, e))
    ∧ (prepare o tp).entryMap.length = o.pageEntries.length + 1
    ∧ ((prepare o tp).entryMap.map Prod.fst).Nodup := by
  have hmap : (prepare o tp).entryMap
      = (o.appEntry :: o.pageEntries).map fun e => (nameOf o e, e) := by
    have h0 : (prepare o tp).entryMap
        = (o.appEntry :: o.pageEntries).foldl
            (fun m e => objAssign m (nameOf o e) e) [] := rfl
    rw [h0, foldl_objAssign_nodup (nameOf o) _ [] (fun e _ => rfl) hdist]
    simp
  refine ⟨?_, ?_, ?_⟩
  · rw [hmap]
    apply List.map_congr_left
    intro e he
    rw [nameOf_eq_logicalNameSpec o e (hpre e he)]
  · rw [hmap]
    simp
  · rw [hmap, List.map_map]
    have h1 : (Prod.fst ∘ fun e => (nameOf o e, e)) = fun e => nameOf o e := rfl
    rw [h1]
    exact List.Pairwise.map _ (fun a b h => h) hdist

/-- C5 witness: concrete instance — with `optsA` (one page, all names
distinct) the entry map is the app and the page keyed by their spec
logical names, of length 2, with unique keys. -/
theorem C5_claim_amended_witness :
    (prepare optsA Platform.web).entryMap
        = (optsA.appEntry :: optsA.pageEntries).map (fun e => (logicalNameSpec optsA e, e))
    ∧ (prepare optsA Platform.web).entryMap.length = optsA.pageEntries.length + 1
    ∧ ((prepare optsA Platform.web).entryMap.map Prod.fst).Nodup :=
  C5_claim_amended optsA Platform.web (by decide) (by decide)
